import Mathlib

/-!
Verification of the metric aggregation engine of `aioprometheus`
(label-keyed storage in `metricdict.py`, collectors in `collectors.py`,
bucketed histograms in `histogram.py`, and the text exposition formatter
in `formats/text.py` / `formats/base.py`).

Python numeric values (`int` / `float`) are modelled by `ℚ` where only
arithmetic matters; every concrete number appearing in the claims is a
small decimal that CPython's binary floats handle exactly at the asserted
precision (the repository's own tests assert the same equalities).
Python dicts are modelled by insertion-ordered association lists with
unique keys, matching CPython's insertion-order semantics.
-/

deriving instance DecidableEq for Except

namespace Aioprom

/-- A Python value usable as a label value in the repository's tests and
examples: either a string or an `int` (`collectors.py` stores whatever the
caller passes; `mypy_types.LabelsType` declares `Dict[str, str]`). -/
inductive LV where
  | s (v : String)
  | i (n : Int)
deriving DecidableEq, Repr

/-- A Python label dict, as an insertion-ordered association list. -/
abbrev Labels := List (String × LV)

/-- `MetricDict.EMPTY_KEY` from `metricdict.py`. -/
def EMPTY_KEY : String := "__EMPTY__"

/-! ## `json.dumps(key, sort_keys=True)`

`MetricDict.__keytransform__` serialises a non-empty label dict with
`json.dumps(key, sort_keys=True)` (default separators `", "` / `": "`).
The serialiser below reproduces that byte-for-byte for the label values
used by the repository, with one documented simplification: of CPython's
JSON string escapes we model `\"`, `\\`, `\n`, `\t`, `\r`, `\b`, `\f`;
CPython additionally rewrites remaining control and (under the default
`ensure_ascii=True`) non-ASCII characters to `\uXXXX`, a further injective
re-encoding that cannot merge distinct keys and is omitted here. -/

/-- JSON escaping of a single character inside a string literal. -/
def escChar (c : Char) : List Char :=
  if c = '"' then ['\\', '"']
  else if c = '\\' then ['\\', '\\']
  else if c = '\n' then ['\\', 'n']
  else if c = '\t' then ['\\', 't']
  else if c = '\r' then ['\\', 'r']
  else if c = '\u0008' then ['\\', 'b']
  else if c = '\u000C' then ['\\', 'f']
  else [c]

/-- JSON escaping of a character sequence. -/
def escList : List Char → List Char
  | [] => []
  | c :: cs => escChar c ++ escList cs

/-- JSON rendering of a label value (`json.dumps` renders Python `int`s
bare and strings quoted). -/
def renderLV : LV → List Char
  | .s v => '"' :: (escList v.data ++ ['"'])
  | .i n => (toString n).data

/-- JSON rendering of one `"name": value` object member. -/
def renderPair (p : String × LV) : List Char :=
  '"' :: (escList p.1.data ++ ['"', ':', ' '] ++ renderLV p.2)

/-- JSON rendering of the object members, separated by `", "`. -/
def renderSep : Labels → List Char
  | [] => []
  | [p] => renderPair p
  | p :: q :: ps => renderPair p ++ ',' :: ' ' :: renderSep (q :: ps)

/-- The key ordering used by `sort_keys=True` (and by
`sorted(result.items(), key=lambda t: t[0])` in the formatter):
lexicographic comparison of the label names. -/
def keyLE (p q : String × LV) : Prop := p.1 ≤ q.1

instance : DecidableRel keyLE := fun p q => inferInstanceAs (Decidable (p.1 ≤ q.1))

/-- Stable sort of dict items by key, as CPython's `sorted` does. -/
def sortPairs (m : Labels) : Labels := List.insertionSort keyLE m

/-- `json.dumps(key, sort_keys=True)` on a label dict. -/
def jsonDumps (m : Labels) : String :=
  ⟨'{' :: (renderSep (sortPairs m) ++ ['}'])⟩

/-- `MetricDict.__keytransform__` restricted to dict inputs
(`metricdict.py` lines 38-52): an empty (falsy) dict maps to the
`EMPTY_KEY` sentinel, any other dict to its canonical JSON dump. -/
def ktfDict (m : Labels) : String :=
  if m = [] then EMPTY_KEY else jsonDumps m

/-! ## `json.JSONDecoder(object_pairs_hook=OrderedDict)`

`Collector.get_all` decodes each stored key back into a label dict with a
JSON decoder that preserves member order.  The parser below inverts
`jsonDumps` on the strings that actually occur as stored keys. -/

/-- Inverse of `escChar` for the character following a backslash. -/
def unescChar (c : Char) : Option Char :=
  if c = '"' then some '"'
  else if c = '\\' then some '\\'
  else if c = 'n' then some '\n'
  else if c = 't' then some '\t'
  else if c = 'r' then some '\r'
  else if c = 'b' then some '\u0008'
  else if c = 'f' then some '\u000C'
  else none

/-- Parse the body of a JSON string literal (after the opening quote),
returning the unescaped content and the input after the closing quote. -/
def parseStrBody : List Char → Option (List Char × List Char)
  | [] => none
  | c :: rest =>
    if c = '"' then some ([], rest)
    else if c = '\\' then
      match rest with
      | [] => none
      | e :: rest2 =>
        match unescChar e, parseStrBody rest2 with
        | some u, some (s, r) => some (u :: s, r)
        | _, _ => none
    else
      match parseStrBody rest with
      | some (s, r) => some (c :: s, r)
      | none => none

/-- Digits of a decimal literal folded into a natural number. -/
def digitsToNat (ds : List Char) : Nat :=
  ds.foldl (fun a c => a * 10 + (c.toNat - 48)) 0

/-- Parse a non-empty maximal run of decimal digits. -/
def parseDigits (l : List Char) : Option (Nat × List Char) :=
  let ds := l.takeWhile Char.isDigit
  if ds = [] then none else some (digitsToNat ds, l.dropWhile Char.isDigit)

/-- Parse one JSON value of the shapes `jsonDumps` emits (a string or an
integer). -/
def parseVal : List Char → Option (LV × List Char)
  | '"' :: rest =>
    match parseStrBody rest with
    | some (s, r) => some (.s ⟨s⟩, r)
    | none => none
  | '-' :: rest =>
    match parseDigits rest with
    | some (n, r) => some (.i (-(n : Int)), r)
    | none => none
  | l =>
    match parseDigits l with
    | some (n, r) => some (.i (n : Int), r)
    | none => none

/-- Parse the members of a JSON object after the opening brace, ending at
the closing brace.  The `Nat` argument is recursion fuel (at least the
number of members suffices). -/
def parseMembers : Nat → List Char → Option (Labels × List Char)
  | 0, _ => none
  | fuel + 1, l =>
    match l with
    | '"' :: rest =>
      match parseStrBody rest with
      | some (k, r1) =>
        match r1 with
        | ':' :: ' ' :: r2 =>
          match parseVal r2 with
          | some (v, r3) =>
            match r3 with
            | ',' :: ' ' :: r4 =>
              match parseMembers fuel r4 with
              | some (ps, r5) => some ((⟨k⟩, v) :: ps, r5)
              | none => none
            | '}' :: r4 => some ([(⟨k⟩, v)], r4)
            | _ => none
          | none => none
        | _ => none
      | none => none
    | _ => none

/-- JSON-decode an object literal into an ordered label dict, as
`decoder.decode` does in `Collector.get_all`. -/
def jsonDecode (s : String) : Option Labels :=
  match s.data with
  | '{' :: '}' :: rest => if rest = [] then some [] else none
  | '{' :: rest =>
    match parseMembers rest.length rest with
    | some (m, r) => if r = [] then some m else none
    | none => none
  | _ => none

/-! ## `MetricDict.__keytransform__` over arbitrary Python inputs

`metricdict.py` compiles `regex = re.compile(r"\{.*:.*,?\}")` and
`__keytransform__(key)` does, in order: falsy keys and the literal
`EMPTY_KEY` string map to `EMPTY_KEY`; strings matched by `regex.match`
(a prefix match anchored only at the start) pass through unchanged; any
remaining non-dict raises `TypeError`; dicts are dumped to JSON. -/

/-- Scan for `re.match(r"\{.*:.*,?\}", ...)` after the opening brace: the
pattern matches iff some `':'` occurs and, after it, some closing brace,
with no newline before that closing brace (`.` does not cross newlines;
the optional comma is subsumed by the second `.*`).  The boolean argument
records whether a `':'` has been seen. -/
def regexScan : List Char → Bool → Bool
  | [], _ => false
  | c :: cs, seenColon =>
    if c = '\n' then false
    else if seenColon ∧ c = '}' then true
    else regexScan cs (seenColon || c = ':')

/-- `regex.match(key)` as a boolean: the key starts with `'{'` and the
remainder contains `':'` then `'}'` before any newline. -/
def regexMatch (s : String) : Bool :=
  match s.data with
  | '{' :: rest => regexScan rest false
  | _ => false

/-- The Python values `__keytransform__` can receive: a string, a dict,
a falsy non-dict non-string value (`None`, `0`, `[]`, ...), or any other
(truthy) object of a different type. -/
inductive KeyInput where
  | pyStr (s : String)
  | pyDict (m : Labels)
  | pyFalsy
  | pyTruthyOther
deriving DecidableEq, Repr

/-- Errors raised by the embedded operations (`TypeError` from
`__keytransform__`; `ValueError` variants from the collectors and the
bucketed histogram; registry conflicts). -/
inductive PyErr where
  | invalidKeyType
  | invalidLabel
  | invalidName
  | negativeIncrement
  | unsortedBuckets
  | insufficientBuckets
  | duplicateName
deriving DecidableEq, Repr

/-- `MetricDict.__keytransform__` (`metricdict.py` lines 38-52) over all
input shapes. -/
def keytransform : KeyInput → Except PyErr String
  | .pyFalsy => .ok EMPTY_KEY
  | .pyStr s =>
    if s = "" ∨ s = EMPTY_KEY then .ok EMPTY_KEY
    else if regexMatch s then .ok s
    else .error .invalidKeyType
  | .pyDict m =>
    if m = [] then .ok EMPTY_KEY else .ok (jsonDumps m)
  | .pyTruthyOther => .error .invalidKeyType

/-! ## The label-keyed store

`MetricDict` stores series state in a plain Python dict keyed by the
transformed string key.  A Python dict assignment updates an existing key
in place and otherwise appends; lookup of an absent key raises `KeyError`
(modelled by `Option`). -/

/-- Dict assignment `store[k] = v`: update in place or append. -/
def storeSet {K V : Type} [DecidableEq K] : List (K × V) → K → V → List (K × V)
  | [], k, v => [(k, v)]
  | p :: rest, k, v =>
    if p.1 = k then (p.1, v) :: rest else p :: storeSet rest k v

/-- Dict lookup `store[k]`, `none` for `KeyError`. -/
def storeGet {K V : Type} [DecidableEq K] : List (K × V) → K → Option V
  | [], _ => none
  | p :: rest, k => if p.1 = k then some p.2 else storeGet rest k

/-! ## Collectors (`collectors.py`) -/

/-- `MetricsTypes` from `collectors.py`. -/
inductive MKind where
  | counter
  | gauge
  | summary
  | untyped
  | histogram
deriving DecidableEq, Repr

/-- `Collector._check_labels` (`collectors.py` lines 143-161) as a
predicate: every label name must avoid the reserved name `"job"`, the
name `"le"` when the collector is a histogram, and the reserved prefix
`"__"`. -/
def labelsOk (kind : MKind) (labels : Labels) : Bool :=
  labels.all fun p =>
    !(p.1 = "job" : Bool) &&
    !(kind = MKind.histogram ∧ p.1 = "le" : Bool) &&
    !(p.1.startsWith ("__"))

/-- A collector (`Collector` and its `Counter`/`Gauge`/`Summary`
subclasses): metric name, doc string, constant labels and the
label-keyed series store.  The store value type is whatever the caller
puts in it (Python is dynamically typed). -/
structure Coll (V : Type) where
  kind : MKind
  name : String
  doc : String
  const_labels : Labels
  values : List (String × V)
deriving Repr, DecidableEq

/-- `Collector.set_value` (`collectors.py` lines 121-125): check the
labels when they are non-empty, then store under the transformed key. -/
def setValue {V : Type} (c : Coll V) (labels : Labels) (v : V) :
    Except PyErr (Coll V) :=
  if labels ≠ [] ∧ labelsOk c.kind labels = false then .error .invalidLabel
  else .ok { c with values := storeSet c.values (ktfDict labels) v }

/-- `Collector.get_value` (`collectors.py` lines 127-132), `none` for
`KeyError`. -/
def getValue {V : Type} (c : Coll V) (labels : Labels) : Option V :=
  storeGet c.values (ktfDict labels)

/-- `Counter.add` (`collectors.py` lines 223-241): negative increments
raise `ValueError` before anything is read or written; otherwise the
stored value (or `0` when the series is absent) is increased. -/
def counterAdd (c : Coll ℚ) (labels : Labels) (v : ℚ) :
    Except PyErr (Coll ℚ) :=
  if v < 0 then .error .negativeIncrement
  else setValue c labels ((getValue c labels).getD 0 + v)

/-- Run a sequence of fallible updates left to right, stopping at the
first raised error, as successive Python method calls do. -/
def iterateE {σ ε α : Type} (f : σ → α → Except ε σ) : σ → List α → Except ε σ
  | c, [] => .ok c
  | c, v :: vs =>
    match f c v with
    | .ok c2 => iterateE f c2 vs
    | .error e => .error e

/-! ## `histogram.Histogram` (`histogram.py`)

Bucket bounds are Python floats including `float("inf")`, modelled by
`WithTop ℚ` with `⊤` for `POS_INF`; observed values are finite numbers
modelled by `ℚ`. -/

/-- A bucket bound. -/
abbrev Bound := WithTop ℚ

/-- First-occurrence key deduplication: `OrderedDict([(b, 0) for b in bs])`
keeps one entry per distinct bound, at the position of its first
occurrence (the values are all equal here). -/
def dedupKeys : List Bound → List Bound
  | [] => []
  | b :: bs => b :: (dedupKeys bs).filter (· ≠ b)

/-- The state of `histogram.Histogram`: the ordered bucket dict mapping
each upper bound to its cumulative count, plus the running observation
count and sum. -/
structure Hist where
  buckets : List (Bound × ℕ)
  observations : ℕ
  sum : ℚ
deriving DecidableEq, Repr

/-- `histogram.Histogram.__init__` (`histogram.py` lines 58-72):
`ValueError("Buckets not in sorted order")` when the bound list differs
from its sorted copy (`sorted` is non-strict, so equal adjacent bounds
pass), then `POS_INF` is appended when the list is non-empty and does not
already end in it, then `ValueError("Must have at least two buckets")`
when fewer than two bounds remain; finally the bucket dict is built with
every count zero.  `histNorm` is the middle step: append `POS_INF` when
the list is non-empty and its last element is not already `POS_INF`. -/
def histNorm (bs : List Bound) : List Bound :=
  if bs ≠ [] ∧ bs.getLast? ≠ some ⊤ then bs ++ [⊤] else bs

/-- `histogram.Histogram.__init__` (`histogram.py` lines 58-72): the
validation sequence described above. -/
def histInit (bs : List Bound) : Except PyErr Hist :=
  if bs ≠ List.insertionSort (· ≤ ·) bs then .error .unsortedBuckets
  else if (histNorm bs).length < 2 then .error .insufficientBuckets
  else .ok ⟨(dedupKeys (histNorm bs)).map fun b => (b, 0), 0, 0⟩

/-- `histogram.Histogram.observe` (`histogram.py` lines 74-87): increment
the cumulative count of every bucket whose upper bound is at least the
value, add the value to the sum and bump the observation count. -/
def observe (v : ℚ) (h : Hist) : Hist :=
  { buckets := h.buckets.map fun p =>
      if (v : Bound) ≤ p.1 then (p.1, p.2 + 1) else p
    observations := h.observations + 1
    sum := h.sum + v }

/-- Cumulative count stored for a given bound: bucket dict lookup. -/
def bucketCount (h : Hist) (b : Bound) : Option ℕ :=
  storeGet h.buckets b

/-! ## The `Histogram` collector (`collectors.py` lines 384-475)

Unlike the scalar collectors it keeps the constructor-supplied bucket
bounds, which are validated only when a `histogram.Histogram` aggregator
is first built inside `add`. -/

/-- The `Histogram` collector: `kind` is always `MetricsTypes.histogram`. -/
structure HistC where
  name : String
  doc : String
  const_labels : Labels
  upper_bounds : List Bound
  values : List (String × Hist)
deriving Repr, DecidableEq

/-- `set_value` inherited from `Collector`, at `V = histogram.Histogram`
and `kind = histogram`. -/
def histSetValue (c : HistC) (labels : Labels) (h : Hist) :
    Except PyErr HistC :=
  if labels ≠ [] ∧ labelsOk .histogram labels = false then .error .invalidLabel
  else .ok { c with values := storeSet c.values (ktfDict labels) h }

/-- `get_value` inherited from `Collector`. -/
def histGetValue (c : HistC) (labels : Labels) : Option Hist :=
  storeGet c.values (ktfDict labels)

/-- `Histogram.add` / `observe` (`collectors.py` lines 435-454): on a
`KeyError` a fresh `histogram.Histogram(*self.upper_bounds)` is built —
raising any bucket-validation error before `set_value` can store
anything — and stored; either way the aggregator then observes the value
in place. -/
def histAdd (c : HistC) (labels : Labels) (v : ℚ) : Except PyErr HistC :=
  match histGetValue c labels with
  | some h => .ok { c with values := storeSet c.values (ktfDict labels) (observe v h) }
  | none => do
    let h ← histInit c.upper_bounds
    histSetValue c labels (observe v h)

/-- `Histogram.get` (`collectors.py` lines 456-475): the returned dict
holds one entry per bucket bound plus the `"count"` and `"sum"` keys,
rendered here as the bucket list with the observation count and sum. -/
def histGet (c : HistC) (labels : Labels) :
    Option (List (Bound × ℕ) × ℕ × ℚ) :=
  (histGetValue c labels).map fun h => (h.buckets, h.observations, h.sum)

/-! ## Summary (`collectors.py` lines 306-381)

The quantile estimator is the external `quantile` PyPI package
(`quantile.Estimator`), not part of this repository. -/

/-- Modelled from the spec: the parts of the external
`quantile.Estimator` that `Summary.get` reads — `observe` "increments
running sum by `value`, running count by 1" (§4.5); the internal quantile
sketch is not modelled. -/
structure Estimator where
  observations : ℕ
  sum : ℚ
deriving DecidableEq, Repr

/-- Modelled from the spec: `quantile.Estimator()` starts with no
observations. -/
def estNew : Estimator := ⟨0, 0⟩

/-- Modelled from the spec: `Estimator.observe` on the sum/count
component. -/
def estObserve (e : Estimator) (v : ℚ) : Estimator :=
  ⟨e.observations + 1, e.sum + v⟩

/-- `Summary.add` / `observe` (`collectors.py` lines 339-357): on a
`KeyError` a fresh estimator is created and stored via `set_value`
(which checks the labels), then the estimator observes the value in
place; an existing estimator is simply fed the value. -/
def summaryAdd (c : Coll Estimator) (labels : Labels) (v : ℚ) :
    Except PyErr (Coll Estimator) :=
  match getValue c labels with
  | some e => .ok { c with values := storeSet c.values (ktfDict labels) (estObserve e v) }
  | none => setValue c labels (estObserve estNew v)

/-- The `"count"` and `"sum"` entries of the dict returned by
`Summary.get` (`collectors.py` lines 359-381): read directly from the
estimator's `_observations` and `_sum`; the per-quantile entries of the
dict are estimates from the unmodelled sketch. -/
def summaryGetCountSum (c : Coll Estimator) (labels : Labels) :
    Option (ℕ × ℚ) :=
  (getValue c labels).map fun e => (e.observations, e.sum)

/-! ## Collector construction and registration

`Collector.__init__` (`collectors.py` lines 83-119) validates the metric
name against `METRIC_NAME_RE`, validates truthy `const_labels`, and
registers the collector in a registry keyed by name
(`Registry.register`, lines 494-513). -/

/-- `METRIC_NAME_RE = re.compile(r"^[a-zA-Z_:][a-zA-Z0-9_:]*$")`. -/
def nameOk (s : String) : Bool :=
  match s.data with
  | [] => false
  | c :: cs =>
    (c.isAlpha || c = '_' || c = ':') &&
      cs.all fun d => d.isAlpha || d.isDigit || d = '_' || d = ':'

/-- `Registry.register`, reduced to the name bookkeeping the claims need:
a duplicate name raises `ValueError`, otherwise the name is recorded. -/
def registryRegister (reg : List String) (name : String) :
    Except PyErr (List String) :=
  if name ∈ reg then .error .duplicateName else .ok (reg ++ [name])

/-- `Histogram(name, doc, const_labels=..., registry=..., buckets=...)`:
`Collector.__init__` checks the name and the constant labels and
registers the collector; `Histogram.__init__` (`collectors.py` lines
424-433) then merely assigns `self.upper_bounds = buckets`, performing no
bucket validation. -/
def histCollectorNew (name doc : String) (const_labels : Labels)
    (reg : List String) (buckets : List Bound) :
    Except PyErr (HistC × List String) :=
  if nameOk name = false then .error .invalidName
  else if const_labels ≠ [] ∧ labelsOk .histogram const_labels = false then
    .error .invalidLabel
  else
    (registryRegister reg name).map fun reg2 =>
      (⟨name, doc, const_labels, buckets, []⟩, reg2)

/-! ## Text exposition formatter (`formats/text.py`, `formats/base.py`)

Only the pieces exercised by the counter-rendering claim are embedded:
`IFormatter._unify_labels`, `TextFormatter._format_line` with
`self.timestamp = False`, and `TextFormatter.marshall_lines` for a
`Counter` collector. -/

/-- `str()` of a decoded label value, as interpolated by
`LABEL_FMT = '\x7bkey\x7d="\x7bvalue\x7d"'`. -/
def renderLVstr : LV → String
  | .s v => v
  | .i n => toString n

/-- `IFormatter._unify_labels(labels, const_labels, True)`
(`formats/base.py` lines 73-101): start from a copy of the truthy
constant labels, overwrite with the per-series labels, and sort the
result by label name. -/
def unifyLabels (labels const_labels : Labels) : Labels :=
  let result :=
    if const_labels = [] then labels
    else labels.foldl (fun r p => storeSet r p.1 p.2) const_labels
  if result = [] then result else sortPairs result

/-- `TextFormatter._format_line` (`formats/text.py` lines 75-113) with
timestamps disabled: merge and sort the labels, render them as
`name="value"` pairs joined by commas inside braces (omitted entirely
when empty), then fill `METRIC_FMT = "\x7bname\x7d\x7blabels\x7d \x7bvalue\x7d \x7btimestamp\x7d"`
with an empty timestamp and strip the result. -/
def formatLine (name : String) (labels : Labels) (value : String)
    (const_labels : Labels) : String :=
  let ls := unifyLabels labels const_labels
  let labelsStr :=
    if ls = [] then ""
    else "\x7b" ++
      String.intercalate (",")
        (ls.map fun p => p.1 ++ "=\"" ++ renderLVstr p.2 ++ "\"") ++
      "\x7d"
  (name ++ labelsStr ++ " " ++ value ++ " " ++ "").trim

/-- `Collector.get_all` (`collectors.py` lines 163-181): one entry per
stored key; the sentinel and falsy keys decode to the empty label dict,
any other key is JSON-decoded (stored keys are always `jsonDumps`
output, on which `jsonDecode` succeeds; `.getD []` totalises).  The
value is re-read through `self.get(k)`, whose string key passes the
regex and maps to itself, returning the stored value. -/
def getAll {V : Type} (values : List (String × V)) : List (Labels × V) :=
  values.map fun p =>
    (if p.1 = "" ∨ p.1 = EMPTY_KEY then [] else (jsonDecode p.1).getD [], p.2)

/-- `TextFormatter.marshall_lines` (`formats/text.py` lines 204-236) for
a `Counter` whose stored values are Python ints: the `# HELP` and
`# TYPE` header lines followed by one `_format_counter` line per series. -/
def marshallCounterLines (c : Coll Int) : List String :=
  ("# HELP " ++ c.name ++ " " ++ c.doc) ::
  ("# TYPE " ++ c.name ++ " counter") ::
  (getAll c.values).map fun p =>
    formatLine c.name p.1 (toString p.2) c.const_labels

/-! ## Shared lemmas -/

/-- Reading back a freshly assigned key returns the assigned value. -/
theorem storeGet_storeSet_self {K V : Type} [DecidableEq K] (s : List (K × V)) (k : K) (v : V) :
    storeGet (storeSet s k v) k = some v := by
  induction s with
  | nil => simp [storeSet, storeGet]
  | cons p rest ih =>
    by_cases h : p.1 = k
    · simp [storeSet, storeGet, h]
    · simp [storeSet, storeGet, h, ih]

/-- The list-equals-its-sorted-copy check of
`histogram.Histogram.__init__` holds exactly for non-decreasing lists. -/
theorem eq_insertionSort_iff_sorted (bs : List Bound) :
    bs = List.insertionSort (· ≤ ·) bs ↔ List.Sorted (· ≤ ·) bs := by
  constructor
  · intro h
    rw [h]
    exact List.sorted_insertionSort _ bs
  · intro h
    exact (List.Sorted.insertionSort_eq h).symm

/-! ## Claim C5: bucket validation in `histogram.Histogram.__init__` -/

/-- C5 (counterexample): the claim says a bound sequence containing two
equal bounds is rejected with UnsortedBuckets, but
`Histogram(1.0, 1.0)` is accepted — the code compares the bound list
with its (non-strictly) sorted copy, so duplicates pass, and the
duplicate collapses to a single bucket in the `OrderedDict`. -/
theorem histInit_duplicate_bounds_accepted :
    histInit [((1 : ℚ) : Bound), ((1 : ℚ) : Bound)] =
      .ok ⟨[(((1 : ℚ) : Bound), 0), (⊤, 0)], 0, 0⟩ :=
  of_decide_eq_true (by with_unfolding_all rfl)

/-- C5 (amended): construction fails with UnsortedBuckets exactly when
the supplied bounds are not non-decreasing (equal adjacent bounds are
accepted, and collapse into one bucket); on a non-decreasing sequence a
`POS_INF` bound is appended whenever the list is non-empty with a
different last bound (`histNorm`), construction fails with
InsufficientBuckets exactly when fewer than 2 bounds (counting `POS_INF`)
then exist, and otherwise succeeds with one zero-count bucket per
distinct bound. -/
theorem histInit_spec (bs : List Bound) :
    (histInit bs = .error .unsortedBuckets ↔ ¬ List.Sorted (· ≤ ·) bs) ∧
    (List.Sorted (· ≤ ·) bs →
      (histInit bs = .error .insufficientBuckets ↔ (histNorm bs).length < 2)) ∧
    (List.Sorted (· ≤ ·) bs → 2 ≤ (histNorm bs).length →
      histInit bs = .ok ⟨(dedupKeys (histNorm bs)).map fun b => (b, 0), 0, 0⟩) := by
  refine ⟨?_, ?_, ?_⟩
  · constructor
    · intro h hs
      rw [histInit, if_neg (by simpa using (eq_insertionSort_iff_sorted bs).mpr hs)] at h
      split at h <;> simp at h
    · intro hs
      rw [histInit, if_pos]
      simpa using fun h => hs ((eq_insertionSort_iff_sorted bs).mp h)
  · intro hs
    rw [histInit, if_neg (by simpa using (eq_insertionSort_iff_sorted bs).mpr hs)]
    constructor
    · intro h
      by_contra hlen
      rw [if_neg hlen] at h
      simp at h
    · intro hlen
      rw [if_pos hlen]
  · intro hs hlen
    rw [histInit, if_neg (by simpa using (eq_insertionSort_iff_sorted bs).mpr hs),
      if_neg (by omega)]

/-- C5 (witness): a single finite bound is non-decreasing, gets `POS_INF`
appended, and yields a two-bucket histogram. -/
theorem histInit_spec_witness :
    List.Sorted (· ≤ ·) [((5 : ℚ) : Bound)] ∧
      histInit [((5 : ℚ) : Bound)] =
        .ok ⟨[(((5 : ℚ) : Bound), 0), (⊤, 0)], 0, 0⟩ := by
  have hs : List.Sorted (· ≤ ·) [((5 : ℚ) : Bound)] := by simp
  refine ⟨hs, ?_⟩
  have h := (histInit_spec [((5 : ℚ) : Bound)]).2.2 hs
    (by exact of_decide_eq_true (by with_unfolding_all rfl))
  rw [h]
  exact of_decide_eq_true (by with_unfolding_all rfl)

/-! ## Claim C9: `__keytransform__` error behaviour -/

/-- C9 (counterexample): the claim says every input that is not a label
map and not empty fails with InvalidKeyType, but the truthy non-dict
string `"\x7ba:1\x7d"` — which is not even decodable JSON — matches the
module's serialized-key regex and is passed through unchanged. -/
theorem keytransform_regex_string_accepted :
    keytransform (.pyStr ("\x7ba:1\x7d")) = .ok ("\x7ba:1\x7d") := by decide

/-- C9 (amended): `__keytransform__` fails with InvalidKeyType exactly on
truthy inputs that are neither a label map, nor the `EMPTY_KEY` sentinel
string, nor a string matching the serialized-key pattern
`\x7b.*:.*,?\x7d` (such strings pass through unchanged); empty or absent
(falsy) label maps are mapped to the `EMPTY_KEY` sentinel instead of
failing. -/
theorem keytransform_spec (k : KeyInput) :
    (keytransform k = .error .invalidKeyType ↔
      (k = .pyTruthyOther ∨
        ∃ s, k = .pyStr s ∧ s ≠ "" ∧ s ≠ EMPTY_KEY ∧ regexMatch s = false)) ∧
    keytransform (.pyDict []) = .ok EMPTY_KEY ∧
    keytransform .pyFalsy = .ok EMPTY_KEY := by
  refine ⟨?_, rfl, rfl⟩
  cases k with
  | pyFalsy => simp [keytransform]
  | pyTruthyOther => simp [keytransform]
  | pyDict m =>
    constructor
    · intro h
      rw [keytransform] at h
      split at h <;> simp at h
    · rintro (h | ⟨s, h, -⟩) <;> simp at h
  | pyStr s =>
    rw [keytransform]
    by_cases h1 : s = "" ∨ s = EMPTY_KEY
    · rw [if_pos h1]
      constructor
      · intro h
        simp at h
      · rintro (h | ⟨t, ht, hne, hek, -⟩)
        · simp at h
        · cases ht
          rcases h1 with h1 | h1
          · exact absurd h1 hne
          · exact absurd h1 hek
    · rw [if_neg h1]
      push_neg at h1
      by_cases h2 : regexMatch s
      · rw [if_pos h2]
        constructor
        · intro h
          simp at h
        · rintro (h | ⟨t, ht, -, -, hm⟩)
          · simp at h
          · cases ht
            rw [h2] at hm
            exact absurd hm (by simp)
      · rw [if_neg h2]
        exact ⟨fun _ => .inr ⟨s, rfl, h1.1, h1.2, by simpa using h2⟩, fun _ => rfl⟩

/-! ## Claim C3: the histogram cumulative invariant -/

/-- Fold a sequence of observations into a histogram. -/
def observeAll (h : Hist) (vs : List ℚ) : Hist :=
  vs.foldl (fun a v => observe v a) h

/-- The invariant of C3: the `POS_INF` bucket count equals the total
observation count, and cumulative counts are monotone in the bound. -/
def HInv (h : Hist) : Prop :=
  bucketCount h ⊤ = some h.observations ∧
  ∀ b1 b2 c1 c2, b1 < b2 → bucketCount h b1 = some c1 →
    bucketCount h b2 = some c2 → c1 ≤ c2

theorem mem_dedupKeys (l : List Bound) (a : Bound) :
    a ∈ dedupKeys l ↔ a ∈ l := by
  induction l with
  | nil => simp [dedupKeys]
  | cons b bs ih =>
    simp only [dedupKeys, List.mem_cons, List.mem_filter, ih]
    constructor
    · rintro (h | ⟨h, -⟩)
      · exact .inl h
      · exact .inr h
    · rintro (h | h)
      · exact .inl h
      · by_cases hab : a = b
        · exact .inl hab
        · exact .inr ⟨h, by simpa using hab⟩

theorem storeGet_map_zero (l : List Bound) (k : Bound) :
    storeGet (l.map fun b => (b, (0 : ℕ))) k =
      if k ∈ l then some 0 else none := by
  induction l with
  | nil => simp [storeGet]
  | cons b bs ih =>
    by_cases h : b = k
    · simp [storeGet, h]
    · simp only [List.map_cons, storeGet, ih, if_neg h, List.mem_cons]
      rcases Decidable.em (k ∈ bs) with hm | hm <;>
        simp [hm, if_neg (fun he : k = b => h he.symm)]

theorem storeGet_map_step {K V : Type} [DecidableEq K]
    (l : List (K × V)) (step : K → V → V) (k : K) :
    storeGet (l.map fun p => (p.1, step p.1 p.2)) k =
      (storeGet l k).map (step k) := by
  induction l with
  | nil => simp [storeGet]
  | cons p rest ih =>
    by_cases h : p.1 = k
    · subst h
      simp [storeGet]
    · simp [storeGet, h, ih]

/-- `observe` rewrites each bucket entry with a key-dependent step. -/
theorem observe_buckets (v : ℚ) (h : Hist) :
    (observe v h).buckets = h.buckets.map fun p =>
      (p.1, if (v : Bound) ≤ p.1 then p.2 + 1 else p.2) := by
  rw [observe]
  exact List.map_congr_left fun p _ => by split <;> simp_all

theorem bucketCount_observe (v : ℚ) (h : Hist) (b : Bound) :
    bucketCount (observe v h) b =
      (bucketCount h b).map fun c => if (v : Bound) ≤ b then c + 1 else c := by
  rw [bucketCount, observe_buckets,
    storeGet_map_step h.buckets (fun k c => if (v : Bound) ≤ k then c + 1 else c) b]
  rfl

theorem hInv_init (bs : List Bound) (h0 : Hist)
    (hinit : histInit bs = .ok h0) : HInv h0 := by
  rw [histInit] at hinit
  split at hinit
  · exact absurd hinit (by simp)
  · split at hinit
    · exact absurd hinit (by simp)
    · rename_i hsorted hlen
      have hne : bs ≠ [] := by
        rintro rfl
        simp [histNorm] at hlen
      have htop : ⊤ ∈ histNorm bs := by
        rw [histNorm]
        split
        · simp
        · rename_i hcond
          rcases Decidable.em (bs.getLast? = some ⊤) with hl | hl
          · exact List.mem_of_getLast?_eq_some hl
          · exact absurd ⟨hne, hl⟩ hcond
      have hok : h0 = ⟨(dedupKeys (histNorm bs)).map fun b => (b, 0), 0, 0⟩ := by
        cases hinit
        rfl
      subst hok
      constructor
      · show storeGet _ _ = some 0
        rw [storeGet_map_zero, if_pos ((mem_dedupKeys _ _).mpr htop)]
      · intro b1 b2 c1 c2 _ h1 h2
        rw [show bucketCount _ b1 = storeGet _ b1 from rfl, storeGet_map_zero] at h1
        rw [show bucketCount _ b2 = storeGet _ b2 from rfl, storeGet_map_zero] at h2
        split at h1 <;> split at h2
        · injection h1 with h1
          injection h2 with h2
          omega
        · exact Option.noConfusion h2
        · exact Option.noConfusion h1
        · exact Option.noConfusion h1

theorem hInv_observe (v : ℚ) (h : Hist) (hi : HInv h) : HInv (observe v h) := by
  obtain ⟨htop, hmono⟩ := hi
  constructor
  · rw [bucketCount_observe, htop]
    simp [observe, le_top]
  · intro b1 b2 c1 c2 hlt h1 h2
    rw [bucketCount_observe] at h1 h2
    rcases hc1 : bucketCount h b1 with - | d1 <;> rw [hc1] at h1 <;> simp at h1
    rcases hc2 : bucketCount h b2 with - | d2 <;> rw [hc2] at h2 <;> simp at h2
    have hd : d1 ≤ d2 := hmono b1 b2 d1 d2 hlt hc1 hc2
    rw [← h1, ← h2]
    by_cases hv1 : (v : Bound) ≤ b1
    · rw [if_pos hv1, if_pos (hv1.trans hlt.le)]
      omega
    · rw [if_neg hv1]
      split <;> omega

theorem hInv_observeAll (h : Hist) (vs : List ℚ) (hi : HInv h) :
    HInv (observeAll h vs) := by
  induction vs generalizing h with
  | nil => exact hi
  | cons v vs ih => exact ih _ (hInv_observe v h hi)

/-- C3 (confirmed): for every valid bucket configuration and every
sequence of observed values, the cumulative count stored for the
`POS_INF` bucket equals the histogram's total observation count, and
counts are monotone along bounds `b1 < b2`; `hInv_observe` above is the
single-step preservation of this invariant by `observe`. -/
theorem histogram_cumulative_invariant (bs : List Bound) (h0 : Hist)
    (hinit : histInit bs = .ok h0) (vs : List ℚ) :
    bucketCount (observeAll h0 vs) ⊤ = some (observeAll h0 vs).observations ∧
    ∀ b1 b2 c1 c2, b1 < b2 →
      bucketCount (observeAll h0 vs) b1 = some c1 →
      bucketCount (observeAll h0 vs) b2 = some c2 → c1 ≤ c2 :=
  hInv_observeAll h0 vs (hInv_init bs h0 hinit)

/-- C3 (witness): the invariant instantiated for bounds `[5]` and
observations `[3, 6]`. -/
theorem histogram_cumulative_invariant_witness :
    histInit [((5 : ℚ) : Bound)] = .ok ⟨[(((5 : ℚ) : Bound), 0), (⊤, 0)], 0, 0⟩ ∧
    (bucketCount (observeAll ⟨[(((5 : ℚ) : Bound), 0), (⊤, 0)], 0, 0⟩ [3, 6]) ⊤ =
      some (observeAll ⟨[(((5 : ℚ) : Bound), 0), (⊤, 0)], 0, 0⟩ [3, 6]).observations ∧
    ∀ b1 b2 c1 c2, b1 < b2 →
      bucketCount (observeAll ⟨[(((5 : ℚ) : Bound), 0), (⊤, 0)], 0, 0⟩ [3, 6]) b1 = some c1 →
      bucketCount (observeAll ⟨[(((5 : ℚ) : Bound), 0), (⊤, 0)], 0, 0⟩ [3, 6]) b2 = some c2 →
      c1 ≤ c2) :=
  have hinit : histInit [((5 : ℚ) : Bound)] =
      .ok ⟨[(((5 : ℚ) : Bound), 0), (⊤, 0)], 0, 0⟩ :=
    of_decide_eq_true (by with_unfolding_all rfl)
  ⟨hinit, histogram_cumulative_invariant [((5 : ℚ) : Bound)] _ hinit [3, 6]⟩

/-! ## Claim C4: `Counter.add` -/

theorem counterAdd_ok_of_some (labels : Labels) (vs : List ℚ) :
    ∀ (c : Coll ℚ) (q : ℚ), labelsOk c.kind labels = true →
      (∀ x ∈ vs, 0 ≤ x) → getValue c labels = some q →
      ∃ c2, iterateE (fun a x => counterAdd a labels x) c vs = .ok c2 ∧
        getValue c2 labels = some (q + vs.sum) := by
  induction vs with
  | nil =>
    intro c q _ _ hget
    exact ⟨c, rfl, by simpa using hget⟩
  | cons v vs ih =>
    intro c q hok hnn hget
    have hstep : counterAdd c labels v =
        .ok { c with values := storeSet c.values (ktfDict labels) (q + v) } := by
      rw [counterAdd, if_neg (not_lt.mpr (hnn v (by simp))), setValue,
        if_neg (by simp [hok]), hget]
      rfl
    obtain ⟨c2, hrun, hval⟩ := ih { c with values := storeSet c.values (ktfDict labels) (q + v) }
      (q + v) hok (fun x hx => hnn x (by simp [hx]))
      (storeGet_storeSet_self c.values (ktfDict labels) (q + v))
    refine ⟨c2, ?_, ?_⟩
    · rw [iterateE, hstep]
      exact hrun
    · rw [hval, List.sum_cons]
      ring_nf

/-- C4 (confirmed): `Counter.add(labels, value)` raises `ValueError`
(NegativeIncrement) when `value < 0` — before any read or write, so the
stored series value is untouched; when `value ≥ 0` (and the labels pass
validation) it stores `current + value` with `current` the stored value
or `0` when the series is absent; consequently a fresh series that
receives a sequence of non-negative increments ends at their sum. -/
theorem counter_add_spec (c : Coll ℚ) (labels : Labels) (v : ℚ) (vs : List ℚ) :
    (v < 0 → counterAdd c labels v = .error .negativeIncrement) ∧
    (0 ≤ v → labelsOk c.kind labels = true →
      ∃ c2, counterAdd c labels v = .ok c2 ∧
        getValue c2 labels = some ((getValue c labels).getD 0 + v)) ∧
    (labelsOk c.kind labels = true → getValue c labels = none →
      (∀ x ∈ vs, 0 ≤ x) → vs ≠ [] →
      ∃ c2, iterateE (fun a x => counterAdd a labels x) c vs = .ok c2 ∧
        getValue c2 labels = some vs.sum) := by
  refine ⟨?_, ?_, ?_⟩
  · intro hneg
    rw [counterAdd, if_pos hneg]
  · intro hnn hok
    refine ⟨{ c with values :=
      (storeSet c.values (ktfDict labels) ((getValue c labels).getD 0 + v)) }, ?_, ?_⟩
    · rw [counterAdd, if_neg (not_lt.mpr hnn), setValue, if_neg (by simp [hok])]
    · exact storeGet_storeSet_self ..
  · intro hok hnone hnn hne
    match vs, hne with
    | v0 :: rest, _ =>
      have hstep : counterAdd c labels v0 =
          .ok { c with values := storeSet c.values (ktfDict labels) (0 + v0) } := by
        rw [counterAdd, if_neg (not_lt.mpr (hnn v0 (by simp))), setValue,
          if_neg (by simp [hok]), hnone]
        rfl
      obtain ⟨c2, hrun, hval⟩ := counterAdd_ok_of_some labels rest
        { c with values := storeSet c.values (ktfDict labels) (0 + v0) }
        (0 + v0) hok (fun x hx => hnn x (by simp [hx]))
        (storeGet_storeSet_self ..)
      refine ⟨c2, ?_, ?_⟩
      · rw [iterateE, hstep]
        exact hrun
      · rw [hval, List.sum_cons]
        ring_nf

/-- C4 (witness): a negative increment fails on a fresh counter, and the
increment sequence `[1, 2]` ends at value `3`. -/
theorem counter_add_spec_witness :
    ((-1 : ℚ) < 0 ∧
      counterAdd ⟨.counter, "c", "d", [], []⟩ [("a", .s ("1"))] (-1) =
        .error .negativeIncrement) ∧
    ∃ c2, iterateE (fun a x => counterAdd a [("a", .s ("1"))] x)
        (⟨.counter, "c", "d", [], []⟩ : Coll ℚ) [1, 2] = .ok c2 ∧
      getValue c2 [("a", .s ("1"))] = some 3 := by
  have hneg : (-1 : ℚ) < 0 := by norm_num
  refine ⟨⟨hneg, (counter_add_spec _ _ (-1) []).1 hneg⟩, ?_⟩
  obtain ⟨c2, hrun, hval⟩ := (counter_add_spec ⟨.counter, "c", "d", [], []⟩
    [("a", .s ("1"))] 0 [1, 2]).2.2 (by decide) rfl
    (by
      intro x hx
      simp only [List.mem_cons, List.not_mem_nil, or_false] at hx
      rcases hx with rfl | rfl <;> norm_num)
    (by simp)
  exact ⟨c2, hrun, by rw [hval]; norm_num⟩

/-! ## Claim C7: Summary sum/count exactness -/

theorem summaryAdd_ok_of_some (labels : Labels) (vs : List ℚ) :
    ∀ (c : Coll Estimator) (e : Estimator), getValue c labels = some e →
      ∃ c2, iterateE (fun a x => summaryAdd a labels x) c vs = .ok c2 ∧
        getValue c2 labels = some ⟨e.observations + vs.length, e.sum + vs.sum⟩ := by
  induction vs with
  | nil =>
    intro c e hget
    refine ⟨c, rfl, ?_⟩
    rw [hget]
    cases e
    simp
  | cons v vs ih =>
    intro c e hget
    obtain ⟨n, q⟩ := e
    obtain ⟨c2, hrun, hval⟩ := ih
      { c with values := (storeSet c.values (ktfDict labels) (estObserve ⟨n, q⟩ v)) }
      (estObserve ⟨n, q⟩ v) (storeGet_storeSet_self ..)
    refine ⟨c2, ?_, ?_⟩
    · rw [iterateE, summaryAdd, hget]
      exact hrun
    · rw [hval]
      show some (⟨n + 1 + vs.length, q + v + vs.sum⟩ : Estimator) = _
      rw [List.sum_cons, List.length_cons]
      exact congrArg some (congrArg₂ Estimator.mk
        (by show n + 1 + vs.length = n + (vs.length + 1); omega)
        (by show q + v + vs.sum = q + (v + vs.sum); ring))

/-- C7 (confirmed, spec-modelled estimator): the `"count"` and `"sum"`
entries returned by `Summary.get` are exact aggregates — after a fresh
series observes a value sequence, they equal the sequence's length and
sum exactly; the model omits the (approximate) per-quantile entries. -/
theorem summary_sum_count_exact (c : Coll Estimator) (labels : Labels)
    (vs : List ℚ) :
    labelsOk c.kind labels = true → getValue c labels = none → vs ≠ [] →
    ∃ c2, iterateE (fun a x => summaryAdd a labels x) c vs = .ok c2 ∧
      summaryGetCountSum c2 labels = some (vs.length, vs.sum) := by
  intro hok hnone hne
  match vs, hne with
  | v0 :: rest, _ =>
    have hstep : summaryAdd c labels v0 =
        .ok { c with values :=
          (storeSet c.values (ktfDict labels) (estObserve estNew v0)) } := by
      rw [summaryAdd, hnone, setValue, if_neg (by simp [hok])]
    obtain ⟨c2, hrun, hval⟩ := summaryAdd_ok_of_some labels rest
      { c with values := (storeSet c.values (ktfDict labels) (estObserve estNew v0)) }
      (estObserve estNew v0) (storeGet_storeSet_self ..)
    refine ⟨c2, ?_, ?_⟩
    · rw [iterateE, hstep]
      exact hrun
    · rw [summaryGetCountSum, hval]
      show some ((estObserve estNew v0).observations + rest.length,
        (estObserve estNew v0).sum + rest.sum) = _
      show some (0 + 1 + rest.length, 0 + v0 + rest.sum) = _
      rw [List.sum_cons, List.length_cons]
      exact congrArg some (congrArg₂ Prod.mk (by omega) (by ring))

/-- C7 (witness): observing `3, 5.2, 13, 4` on a fresh summary series
yields exactly `count = 4` and `sum = 25.2`. -/
theorem summary_sum_count_exact_witness :
    ∃ c2, iterateE (fun a x => summaryAdd a [("a", .s ("1"))] x)
        (⟨.summary, "s", "d", [], []⟩ : Coll Estimator) [3, 26/5, 13, 4] = .ok c2 ∧
      summaryGetCountSum c2 [("a", .s ("1"))] = some (4, 126/5) := by
  obtain ⟨c2, hrun, hval⟩ := summary_sum_count_exact
    (⟨.summary, "s", "d", [], []⟩ : Coll Estimator) [("a", .s ("1"))]
    [3, 26/5, 13, 4] (by decide) rfl (by simp)
  refine ⟨c2, hrun, ?_⟩
  rw [hval]
  norm_num

/-! ## Claim C8: reserved label names in `set_value` -/

/-- A label key that fails `_check_labels` makes the whole check fail. -/
theorem labelsOk_false_of_bad {kind : MKind} {labels : Labels} {k : String}
    (hmem : k ∈ labels.map Prod.fst)
    (hbad : k = "job" ∨ (kind = .histogram ∧ k = "le") ∨ k.startsWith ("__") = true) :
    labelsOk kind labels = false := by
  obtain ⟨p, hp, hk⟩ := List.mem_map.mp hmem
  refine (Bool.eq_false_iff).mpr fun hall => ?_
  have := (List.all_eq_true.mp hall) p hp
  subst hk
  simp only [Bool.and_eq_true, Bool.not_eq_eq_eq_not, Bool.not_true,
    decide_eq_false_iff_not] at this
  rcases hbad with h | ⟨h1, h2⟩ | h
  · exact this.1.1 h
  · exact this.1.2 ⟨h1, h2⟩
  · rw [this.2] at h
    cases h

/-- C8 (confirmed): `set_value` with a label map containing the name
`"job"` or any name starting with `"__"` fails with InvalidLabel for
every collector kind; a label map containing `"le"` fails when the
collector is a histogram, while on every other kind a label map whose
names merely avoid `"job"` and the `"__"` prefix (so `"le"` in
particular is allowed) is stored successfully. -/
theorem set_value_label_validation {V : Type} (c : Coll V) (labels : Labels)
    (v : V) :
    (("job" ∈ labels.map Prod.fst) → setValue c labels v = .error .invalidLabel) ∧
    ((∃ k ∈ labels.map Prod.fst, k.startsWith ("__") = true) →
      setValue c labels v = .error .invalidLabel) ∧
    (c.kind = .histogram → ("le" ∈ labels.map Prod.fst) →
      setValue c labels v = .error .invalidLabel) ∧
    (c.kind ≠ .histogram →
      (∀ k ∈ labels.map Prod.fst, k ≠ "job" ∧ k.startsWith ("__") = false) →
      ∃ c2, setValue c labels v = .ok c2) := by
  have hne : ∀ k : String, k ∈ labels.map Prod.fst → labels ≠ [] := by
    rintro k hk rfl
    simp at hk
  refine ⟨?_, ?_, ?_, ?_⟩
  · intro hmem
    rw [setValue, if_pos ⟨hne _ hmem, labelsOk_false_of_bad hmem (.inl rfl)⟩]
  · rintro ⟨k, hmem, hpre⟩
    rw [setValue, if_pos ⟨hne _ hmem, labelsOk_false_of_bad hmem (.inr (.inr hpre))⟩]
  · intro hkind hmem
    rw [setValue, if_pos ⟨hne _ hmem, labelsOk_false_of_bad hmem (.inr (.inl ⟨hkind, rfl⟩))⟩]
  · intro hkind hgood
    refine ⟨{ c with values := (storeSet c.values (ktfDict labels) v) }, ?_⟩
    rw [setValue, if_neg ?_]
    rintro ⟨-, hfail⟩
    rw [Bool.eq_false_iff] at hfail
    refine hfail (List.all_eq_true.mpr fun p hp => ?_)
    obtain ⟨hjob, hpre⟩ := hgood p.1 (List.mem_map.mpr ⟨p, hp, rfl⟩)
    simp only [Bool.and_eq_true, Bool.not_eq_eq_eq_not, Bool.not_true,
      decide_eq_false_iff_not]
    exact ⟨⟨hjob, fun h => hkind h.1⟩, by rw [hpre]⟩

/-- C8 (witness): on a counter, `\x7b"job": "x"\x7d` is rejected while
`\x7b"le": "1"\x7d` is stored. -/
theorem set_value_label_validation_witness :
    (setValue (⟨.counter, "c", "d", [], []⟩ : Coll ℚ) [("job", .s ("x"))] 1 =
      .error .invalidLabel) ∧
    ∃ c2, setValue (⟨.counter, "c", "d", [], []⟩ : Coll ℚ) [("le", .s ("1"))] 1 =
      .ok c2 :=
  ⟨(set_value_label_validation ⟨.counter, "c", "d", [], []⟩ [("job", .s ("x"))] 1).1
      (by simp),
    (set_value_label_validation ⟨.counter, "c", "d", [], []⟩ [("le", .s ("1"))] 1).2.2.2
      (by simp) (by
        intro k hk
        simp only [List.map_cons, List.map_nil, List.mem_cons, List.not_mem_nil,
          or_false] at hk
        subst hk
        exact ⟨by decide, of_decide_eq_true (by with_unfolding_all rfl)⟩)⟩

/-! ## Claim C10: bucket validation deferred to the first observation -/

/-- C10 (confirmed): constructing a `Histogram` collector performs no
bucket validation — any bounds list (unsorted or insufficient) yields a
registered collector with an empty series store; when the bounds are
invalid, each `observe`/`add` on a label set with no series (in
particular the first) propagates the `histogram.Histogram` constructor
error raised before `set_value` runs, so no series state is ever
stored. -/
theorem histogram_deferred_validation (name doc : String) (reg : List String)
    (bs : List Bound) (labels : Labels) (v : ℚ) (e : PyErr) :
    nameOk name = true → name ∉ reg →
    ∃ c, histCollectorNew name doc [] reg bs = .ok (c, reg ++ [name]) ∧
      c.upper_bounds = bs ∧ c.values = [] ∧ histGetValue c labels = none ∧
      (histInit bs = .error e → histAdd c labels v = .error e) := by
  intro hname hreg
  refine ⟨⟨name, doc, [], bs, []⟩, ?_, rfl, rfl, rfl, ?_⟩
  · rw [histCollectorNew, if_neg (by simp [hname]), if_neg (by simp),
      registryRegister, if_neg hreg]
    rfl
  · intro hinit
    have hgv : histGetValue ⟨name, doc, [], bs, []⟩ labels = none := rfl
    simp only [histAdd, hgv, hinit]
    rfl

/-- C10 (witness): with the unsorted bounds `[2, 1]` the collector is
built and registered, and the first `add` fails with UnsortedBuckets. -/
theorem histogram_deferred_validation_witness :
    ∃ c, histCollectorNew "h" ("d") []
        [] [((2 : ℚ) : Bound), ((1 : ℚ) : Bound)] = .ok (c, [] ++ ["h"]) ∧
      c.upper_bounds = [((2 : ℚ) : Bound), ((1 : ℚ) : Bound)] ∧ c.values = [] ∧
      histGetValue c [("a", .s ("1"))] = none ∧
      (histInit [((2 : ℚ) : Bound), ((1 : ℚ) : Bound)] = .error .unsortedBuckets →
        histAdd c [("a", .s ("1"))] 3 = .error .unsortedBuckets) :=
  histogram_deferred_validation "h" ("d") [] [((2 : ℚ) : Bound), ((1 : ℚ) : Bound)]
    [("a", .s ("1"))] 3 .unsortedBuckets (by decide) (by simp)

/-! ## Claim C2: the text formatter on the reference counter scenario -/

/-- C2 (confirmed): the counter `test_counter` with doc `"Test Counter."`
and const_labels `\x7b"test": "test_counter"\x7d`, after
`set(\x7b"data": 1\x7d, 100)`, `set(\x7b"data": "2"\x7d, 200)`,
`set(\x7b"data": 3\x7d, 300)`, `set(\x7b"data": 1\x7d, 400)` (the last
write overwrites the first series), marshalls with timestamps disabled to
exactly the HELP line, the TYPE line, and the three series lines with
the merged label set sorted by name and the series label `data` ahead of
the constant label `test`. -/
theorem text_format_counter_scenario :
    ((do
      let c1 ← setValue (⟨.counter, "test_counter", "Test Counter.",
        [("test", .s ("test_counter"))], []⟩ : Coll Int) [("data", .i 1)] 100
      let c2 ← setValue c1 [("data", .s ("2"))] 200
      let c3 ← setValue c2 [("data", .i 3)] 300
      setValue c3 [("data", .i 1)] 400 :
      Except PyErr (Coll Int)).map marshallCounterLines) = .ok [
    "# HELP test_counter Test Counter.",
    "# TYPE test_counter counter",
    "test_counter\x7bdata=\"1\",test=\"test_counter\"\x7d 400",
    "test_counter\x7bdata=\"2\",test=\"test_counter\"\x7d 200",
    "test_counter\x7bdata=\"3\",test=\"test_counter\"\x7d 300"] :=
  of_decide_eq_true (by with_unfolding_all rfl)

/-! ## Claim C6: the histogram bucket scenario -/

/-- C6 (confirmed): a `Histogram` collector with bounds `[5, 10, 15]`
(`POS_INF` auto-appended on first use), after observing `3`, `5.2`, `13`,
`4` under the label `\x7b"data": 1\x7d`, returns from `get` the bucket
counts `5 ↦ 2`, `10 ↦ 3`, `15 ↦ 4`, `POS_INF ↦ 4` with `count = 4` and
`sum = 25.2`; and in general each observation increments the cumulative
count of exactly the bounds at or above the value. -/
theorem histogram_bucket_scenario :
    ((iterateE (fun c v => histAdd c [("data", .i 1)] v)
        (⟨"h", "histogram doc", [],
          [((5 : ℚ) : Bound), ((10 : ℚ) : Bound), ((15 : ℚ) : Bound)], []⟩ : HistC)
        [3, 26/5, 13, 4]).map fun c => histGet c [("data", .i 1)]) =
      .ok (some ([(((5 : ℚ) : Bound), 2), (((10 : ℚ) : Bound), 3),
        (((15 : ℚ) : Bound), 4), (⊤, 4)], 4, 126/5)) ∧
    ∀ (h : Hist) (v : ℚ) (b : Bound),
      bucketCount (observe v h) b =
        (bucketCount h b).map fun c => if (v : Bound) ≤ b then c + 1 else c :=
  ⟨of_decide_eq_true (by with_unfolding_all rfl),
    fun h v b => bucketCount_observe v h b⟩

/-! ## Claim C1: key canonicalization

The spec's LabelSet is a string-to-string map; `strLabels` injects such a
map into the label-value representation.  The injectivity of `jsonDumps`
is established constructively: the JSON decoder inverts it, so equal key
strings force equal sorted member lists. -/

/-- A spec-level LabelSet (string names to string values) as stored in a
Python dict. -/
def strLabels (m : List (String × String)) : Labels :=
  m.map fun p => (p.1, .s p.2)

instance : IsTotal (String × LV) keyLE := ⟨fun p q => le_total p.1 q.1⟩

instance : IsTrans (String × LV) keyLE := ⟨fun _ _ _ h1 h2 => le_trans h1 h2⟩

/-- Unescaping a rendered string body recovers the original characters. -/
theorem parseStrBody_escList (s rest : List Char) :
    parseStrBody (escList s ++ '"' :: rest) = some (s, rest) := by
  induction s with
  | nil =>
    rw [escList, List.nil_append, parseStrBody.eq_def]
    simp
  | cons c cs ih =>
    rw [escList, List.append_assoc]
    by_cases h1 : c = '"'
    · subst h1
      simp [escChar, parseStrBody, unescChar, ih]
    · by_cases h2 : c = '\\'
      · subst h2
        simp [escChar, parseStrBody, unescChar, ih]
      · by_cases h3 : c = '\n'
        · subst h3
          simp [escChar, parseStrBody, unescChar, ih]
        · by_cases h4 : c = '\t'
          · subst h4
            simp [escChar, parseStrBody, unescChar, ih]
          · by_cases h5 : c = '\r'
            · subst h5
              simp [escChar, parseStrBody, unescChar, ih]
            · by_cases h6 : c = '\u0008'
              · subst h6
                simp [escChar, parseStrBody, unescChar, ih]
              · by_cases h7 : c = '\u000C'
                · subst h7
                  simp [escChar, parseStrBody, unescChar, ih]
                · rw [escChar, if_neg h1, if_neg h2, if_neg h3, if_neg h4,
                    if_neg h5, if_neg h6, if_neg h7, List.cons_append,
                    List.nil_append, parseStrBody.eq_def]
                  simp [h1, h2, ih]

/-- Parsing one rendered member list (string-valued) recovers it. -/
theorem parseMembers_renderSep (m : Labels)
    (hS : ∀ p ∈ m, ∃ v, p.2 = LV.s v) :
    ∀ (fuel : Nat) (rest : List Char), m.length ≤ fuel → m ≠ [] →
      parseMembers fuel (renderSep m ++ '}' :: rest) = some (m, rest) := by
  induction m with
  | nil => intro _ _ _ hne; exact absurd rfl hne
  | cons p ps ih =>
    intro fuel rest hfuel _
    obtain ⟨k, v⟩ := p
    obtain ⟨vs, hvs⟩ := hS (k, v) (by simp)
    simp only at hvs
    subst hvs
    match fuel, hfuel with
    | f + 1, hf =>
      cases ps with
      | nil =>
        show parseMembers (f + 1) (renderPair (k, .s vs) ++ '}' :: rest) = _
        have hshape : renderPair (k, .s vs) ++ '}' :: rest =
            '"' :: (escList k.data ++ '"' :: ':' :: ' ' ::
              ('"' :: (escList vs.data ++ '"' :: '}' :: rest))) := by
          simp [renderPair, renderLV, List.append_assoc]
        rw [hshape]
        simp only [parseMembers, parseVal, parseStrBody_escList]
      | cons q qs =>
        show parseMembers (f + 1)
          ((renderPair (k, .s vs) ++ ',' :: ' ' :: renderSep (q :: qs)) ++
            '}' :: rest) = _
        have hshape : (renderPair (k, .s vs) ++ ',' :: ' ' :: renderSep (q :: qs)) ++
            '}' :: rest =
            '"' :: (escList k.data ++ '"' :: ':' :: ' ' ::
              ('"' :: (escList vs.data ++ '"' :: ',' :: ' ' ::
                (renderSep (q :: qs) ++ '}' :: rest)))) := by
          simp [renderPair, renderLV, List.append_assoc]
        rw [hshape]
        simp only [parseMembers, parseVal, parseStrBody_escList]
        rw [ih (fun p hp => hS p (by simp [hp])) f rest
          (Nat.le_of_succ_le_succ hf) (by simp)]

/-- Strict key order, used to show sorted unique-key member lists are
canonical. -/
def keyLT (p q : String × LV) : Prop := p.1 < q.1

/-- Rendered member lists (string-valued, non-empty) are injective: the
decoder recovers the members. -/
theorem renderSep_inj (m1 m2 : Labels)
    (h1S : ∀ p ∈ m1, ∃ v, p.2 = LV.s v) (h2S : ∀ p ∈ m2, ∃ v, p.2 = LV.s v)
    (h1 : m1 ≠ []) (h2 : m2 ≠ [])
    (heq : renderSep m1 ++ ['}'] = renderSep m2 ++ ['}']) : m1 = m2 := by
  have r1 := parseMembers_renderSep m1 h1S (max m1.length m2.length) []
    (le_max_left _ _) h1
  have r2 := parseMembers_renderSep m2 h2S (max m1.length m2.length) []
    (le_max_right _ _) h2
  rw [show renderSep m1 ++ '}' :: ([] : List Char) =
    renderSep m2 ++ '}' :: ([] : List Char) from heq] at r1
  have h3 := r1.symm.trans r2
  simpa using h3

theorem sortPairs_perm (m : Labels) : List.Perm (sortPairs m) m :=
  List.perm_insertionSort keyLE m

theorem sortPairs_ne_nil {m : Labels} (h : m ≠ []) : sortPairs m ≠ [] := by
  intro hnil
  exact h (((hnil ▸ sortPairs_perm m).symm).eq_nil)

/-- Equal JSON dumps force equal sorted member lists (string-valued
maps). -/
theorem sortPairs_eq_of_dumps_eq (m1 m2 : Labels)
    (h1S : ∀ p ∈ m1, ∃ v, p.2 = LV.s v) (h2S : ∀ p ∈ m2, ∃ v, p.2 = LV.s v)
    (h1 : m1 ≠ []) (h2 : m2 ≠ [])
    (h : jsonDumps m1 = jsonDumps m2) : sortPairs m1 = sortPairs m2 := by
  have hd : '{' :: (renderSep (sortPairs m1) ++ ['}']) =
      '{' :: (renderSep (sortPairs m2) ++ ['}']) := congrArg String.data h
  injection hd with _ htail
  exact renderSep_inj _ _
    (fun p hp => h1S p ((sortPairs_perm m1).mem_iff.mp hp))
    (fun p hp => h2S p ((sortPairs_perm m2).mem_iff.mp hp))
    (sortPairs_ne_nil h1) (sortPairs_ne_nil h2) htail

/-- Sorting is canonical on permutation-equivalent unique-key maps. -/
theorem sortPairs_eq_of_perm (m1 m2 : Labels) (hperm : List.Perm m1 m2)
    (hnd : (m1.map Prod.fst).Nodup) : sortPairs m1 = sortPairs m2 := by
  have hnd2 : (m2.map Prod.fst).Nodup := ((hperm.map Prod.fst).nodup_iff).mp hnd
  have hne1 : List.Pairwise (fun p q : String × LV => p.1 ≠ q.1) (sortPairs m1) :=
    ((sortPairs_perm m1).pairwise_iff fun h => h.symm).mpr (List.pairwise_map.mp hnd)
  have hne2 : List.Pairwise (fun p q : String × LV => p.1 ≠ q.1) (sortPairs m2) :=
    ((sortPairs_perm m2).pairwise_iff fun h => h.symm).mpr (List.pairwise_map.mp hnd2)
  have hs1 : List.Sorted keyLT (sortPairs m1) :=
    ((List.sorted_insertionSort keyLE m1).and hne1).imp
      fun h => lt_of_le_of_ne h.1 h.2
  have hs2 : List.Sorted keyLT (sortPairs m2) :=
    ((List.sorted_insertionSort keyLE m2).and hne2).imp
      fun h => lt_of_le_of_ne h.1 h.2
  haveI : IsAntisymm (String × LV) keyLT :=
    ⟨fun a b hab hba => absurd (lt_trans hab hba) (lt_irrefl _)⟩
  exact List.eq_of_perm_of_sorted
    ((sortPairs_perm m1).trans (hperm.trans (sortPairs_perm m2).symm)) hs1 hs2

/-- A JSON dump always starts with a brace, so it is never the sentinel
key. -/
theorem jsonDumps_ne_empty_key (m : Labels) : jsonDumps m ≠ EMPTY_KEY := by
  intro h
  have h1 : (jsonDumps m).data.head? = some '{' := rfl
  have h2 : (EMPTY_KEY : String).data.head? = some '_' := rfl
  rw [h, h2] at h1
  simp at h1

/-- C1 (confirmed): on label maps (string names to string values, unique
names as in a Python dict), `__keytransform__` produces identical keys
exactly when the maps hold the same set of (name, value) pairs; in
particular permutations of a map share the key, and a value stored under
one ordering is retrieved under any other. -/
theorem key_canonicalization (A B : List (String × String))
    (hA : (A.map Prod.fst).Nodup) (hB : (B.map Prod.fst).Nodup) :
    (ktfDict (strLabels A) = ktfDict (strLabels B) ↔ ∀ p, p ∈ A ↔ p ∈ B) ∧
    (List.Perm A B → ktfDict (strLabels A) = ktfDict (strLabels B)) ∧
    (∀ (V : Type) (v : V) (st : List (String × V)), (∀ p, p ∈ A ↔ p ∈ B) →
      storeGet (storeSet st (ktfDict (strLabels A)) v) (ktfDict (strLabels B)) =
        some v) := by
  have hinj : ∀ (l : List (String × String)) (p : String × String),
      p ∈ l ↔ (p.1, LV.s p.2) ∈ strLabels l := by
    intro l p
    rw [strLabels, List.mem_map]
    constructor
    · exact fun hp => ⟨p, hp, rfl⟩
    · rintro ⟨q, hq, heq⟩
      obtain ⟨h1, h2⟩ := Prod.mk.injEq .. ▸ heq
      injection h2 with h2
      obtain ⟨a, b⟩ := p
      obtain ⟨a2, b2⟩ := q
      simp only at h1 h2
      rw [← h1, ← h2]
      exact hq
  have hAnd : A.Nodup := List.Nodup.of_map Prod.fst hA
  have hBnd : B.Nodup := List.Nodup.of_map Prod.fst hB
  have hSA : ∀ p ∈ strLabels A, ∃ v, p.2 = LV.s v := by
    rintro p hp
    obtain ⟨q, -, rfl⟩ := List.mem_map.mp hp
    exact ⟨q.2, rfl⟩
  have hSB : ∀ p ∈ strLabels B, ∃ v, p.2 = LV.s v := by
    rintro p hp
    obtain ⟨q, -, rfl⟩ := List.mem_map.mp hp
    exact ⟨q.2, rfl⟩
  have hkeysA : ((strLabels A).map Prod.fst).Nodup := by
    rw [strLabels, List.map_map]
    exact hA
  have main : ktfDict (strLabels A) = ktfDict (strLabels B) ↔
      ∀ p, p ∈ A ↔ p ∈ B := by
    constructor
    · intro hkey p
      rcases Decidable.em (A = []) with rfl | hAne
      · rcases Decidable.em (B = []) with rfl | hBne
        · simp
        · rw [show ktfDict (strLabels []) = EMPTY_KEY from rfl, ktfDict,
            if_neg (by simpa [strLabels] using hBne)] at hkey
          exact absurd hkey.symm (jsonDumps_ne_empty_key _)
      · rcases Decidable.em (B = []) with rfl | hBne
        · rw [show ktfDict (strLabels []) = EMPTY_KEY from rfl, ktfDict,
            if_neg (by simpa [strLabels] using hAne)] at hkey
          exact absurd hkey (jsonDumps_ne_empty_key _)
        · rw [ktfDict, if_neg (by simpa [strLabels] using hAne), ktfDict,
            if_neg (by simpa [strLabels] using hBne)] at hkey
          have hsort := sortPairs_eq_of_dumps_eq _ _ hSA hSB
            (by simpa [strLabels] using hAne) (by simpa [strLabels] using hBne)
            hkey
          have hperm : List.Perm (strLabels A) (strLabels B) :=
            (sortPairs_perm _).symm.trans (hsort ▸ sortPairs_perm (strLabels B))
          rw [hinj A p, hinj B p]
          exact hperm.mem_iff
    · intro hmem
      have hperm : List.Perm A B := (List.perm_ext_iff_of_nodup hAnd hBnd).mpr hmem
      rcases Decidable.em (A = []) with rfl | hAne
      · rw [hperm.symm.eq_nil]
      · have hBne : B ≠ [] := by
          intro h
          exact hAne (h ▸ hperm).eq_nil
        have hpermS : List.Perm (strLabels A) (strLabels B) := hperm.map _
        rw [ktfDict, if_neg (by simpa [strLabels] using hAne), ktfDict,
          if_neg (by simpa [strLabels] using hBne), jsonDumps, jsonDumps,
          sortPairs_eq_of_perm _ _ hpermS hkeysA]
  refine ⟨main, fun hperm => main.mpr fun p => hperm.mem_iff, ?_⟩
  intro V v st hmem
  rw [← main.mpr hmem]
  exact storeGet_storeSet_self ..

/-- C1 (witness): the two orderings of `\x7b"a": "1", "b": "2"\x7d`
share a key, and a value stored under one is read back under the
other. -/
theorem key_canonicalization_witness :
    (ktfDict (strLabels [("a", "1"), ("b", "2")]) =
        ktfDict (strLabels [("b", "2"), ("a", "1")]) ↔
      ∀ p, p ∈ [("a", "1"), ("b", "2")] ↔ p ∈ [("b", "2"), ("a", "1")]) ∧
    storeGet (storeSet ([] : List (String × ℚ))
        (ktfDict (strLabels [("a", "1"), ("b", "2")])) 7)
      (ktfDict (strLabels [("b", "2"), ("a", "1")])) = some 7 := by
  have h := key_canonicalization [("a", "1"), ("b", "2")] [("b", "2"), ("a", "1")]
    (by decide) (by decide)
  exact ⟨h.1, h.2.2 ℚ 7 [] (by
    intro p
    simp only [List.mem_cons, List.not_mem_nil, or_false]
    exact or_comm)⟩

end Aioprom
